import Mathlib

/-!
Shallow embedding of the PySeas buoy-image gallery pipeline, taken from
the source files `gallery_v4.py` (the reference pipeline: blank-frame
classifier, horizon aligner, panel split/recombine, gallery composer)
and `gallery_v2.py` (an earlier blank-frame classifier, embedded for
comparison).

An image is modelled as a width, a height and a total pixel function
into the 256 grayscale intensities; the source call `convert("L")` is
reflected by taking the pixel values to be the luminance bucket
directly.  The Python float threshold `0.95 * total` is modelled
exactly by cross multiplication (`20 * count > 19 * total`); at any
realistic pixel count the IEEE double comparison used by the source
agrees with this exact rational comparison, because the relative
rounding error of `0.95 * total` is far below the minimal gap `1/20`
between `0.95 * total` and a distinct integer.

The external collaborators (the OpenCV line detector and the general
nonzero-angle branch of PIL rotation) are kept abstract, as the spec
treats them: only the facts the source relies on are modelled (the
detector may report no lines, PIL returns an identical copy for a zero
angle, and OpenCV Canny fails on an empty input).
-/

set_option maxRecDepth 20000 in
/-- An in-memory raster image: width, height, and grayscale pixel
values.  Pixels outside the nominal bounds are immaterial. -/
structure Img where
  w : Nat
  h : Nat
  px : Nat → Nat → Fin 256

instance : Inhabited Img := ⟨⟨0, 0, fun _ _ => 0⟩⟩

/-- Model of `PIL.Image.new`: a zero-filled canvas of the given size. -/
def Img.new (w h : Nat) : Img := ⟨w, h, fun _ _ => 0⟩

/-- Model of `image.crop((l, u, r, lo))`: the result has size
`(r - l, lo - u)` and reads the source inside its bounds, zero-padded
outside (natural subtraction matches the clamping of the source usage,
where the box coordinates are non-negative). -/
def crop (img : Img) (l u r lo : Nat) : Img :=
  ⟨r - l, lo - u, fun x y =>
    if l + x < img.w ∧ u + y < img.h then img.px (l + x) (u + y) else 0⟩

/-- Model of `base.paste(img, (x, y))`: overwrite the rectangle with
corner `(x, y)` by the pasted image, keeping the canvas size. -/
def paste (base img : Img) (x y : Nat) : Img :=
  ⟨base.w, base.h, fun a b =>
    if x ≤ a ∧ a < x + img.w ∧ y ≤ b ∧ b < y + img.h then
      img.px (a - x) (b - y)
    else base.px a b⟩

/-- The `paste` accumulation loop shared verbatim by
`process_and_split_image` and `create_gallery`: paste each image at
`x = 0` and the running `y_offset`, then advance the offset by the
pasted height. -/
def paste_column : Img → List Img → Nat → Img
  | canvas, [], _ => canvas
  | canvas, img :: rest, y => paste_column (paste canvas img 0 y) rest (y + img.h)

/-- Model of `grayscale.histogram()[b]`: the number of pixels whose
luminance falls in bucket `b`. -/
def hist (img : Img) (b : Nat) : Nat :=
  ((Finset.range img.w ×ˢ Finset.range img.h).filter
    (fun p => (img.px p.1 p.2 : Nat) = b)).card

/-- Model of `sum(hist)`: the total pixel mass, summed over the 256
histogram buckets exactly as in the source. -/
def total_pixels (img : Img) : Nat := ∑ b in Finset.range 256, hist img b

/-- Model of `max(hist)`: the largest bucket of the histogram. -/
def max_hist (img : Img) : Nat := (Finset.range 256).sup (hist img)

namespace GalleryV2

/-- The classifier `is_blank_image` of `gallery_v2.py`: blank exactly
when the pure-white bucket holds more than 95 percent of the pixels
(`hist[-1] > 0.95 * sum(hist)`). -/
def is_blank_image (image : Img) : Bool :=
  decide (20 * hist image 255 > 19 * total_pixels image)

end GalleryV2

namespace GalleryV4

/-- The classifier `is_blank_image` of `gallery_v4.py`: blank when the
pure-white bucket, the pure-black bucket, or any single bucket holds
more than 95 percent of the pixels. -/
def is_blank_image (image : Img) : Bool :=
  if 20 * hist image 255 > 19 * total_pixels image ∨
      20 * hist image 0 > 19 * total_pixels image then true
  else if 20 * max_hist image > 19 * total_pixels image then true
  else false

/-- Abstract interface to the external OpenCV and PIL collaborators
used by `align_horizon`.  `hough` models `cv2.Canny` followed by
`cv2.HoughLines`, returning the detected line angles already converted
to degrees (`np.rad2deg(theta)`), or `none` when `lines is None`; its
error case models the OpenCV assertion on an empty input.  `rotate`
models the general nonzero-angle branch of `PIL.Image.rotate` with
bicubic resampling and `expand=True`. -/
structure Cv where
  hough : Img → Except Unit (Option (List ℚ))
  rotate : Img → ℚ → Img

/-- Model of `image.rotate(angle, resample=Image.BICUBIC, expand=True)`:
PIL takes a fast path returning an identical copy of the image when the
normalised angle is zero. -/
def pil_rotate (E : Cv) (image : Img) (angle : ℚ) : Img :=
  if angle = 0 then image else E.rotate image angle

/-- The angle computation inside `align_horizon`: the arithmetic mean
of `np.rad2deg(theta) - 90` over the detected lines, and exactly `0`
when `lines is None`.  The error of the detector (empty input) is
propagated. -/
def correction_angle (E : Cv) (image : Img) : Except Unit ℚ := do
  let lines ← E.hough image
  match lines with
  | none => pure 0
  | some thetas =>
      let angles := thetas.map (fun t => t - 90)
      pure (angles.sum / (angles.length : ℚ))

/-- `align_horizon` of `gallery_v4.py`: compute the mean deviation
angle and rotate the panel by its negative. -/
def align_horizon (E : Cv) (image : Img) : Except Unit Img := do
  let mean_angle ← correction_angle E image
  pure (pil_rotate E image (-mean_angle))

/-- `panel_height = height // 6` from `process_and_split_image`. -/
def panel_height (image : Img) : Nat := image.h / 6

/-- The i-th strip
`image.crop((0, i * panel_height, width, (i + 1) * panel_height))`. -/
def panel (image : Img) (i : Nat) : Img :=
  crop image 0 (i * panel_height image) image.w ((i + 1) * panel_height image)

/-- The list `aligned_panels` of `process_and_split_image`, with the
aligner abstracted into a function argument: in the source each strip
goes through `align_horizon`, whose output depends on the external
detector and rotator, and whose exceptions escape the pipeline (they
are caught per source in `create_gallery`).  The geometric claims hold
for every aligner output, so the aligner is a parameter. -/
def aligned_panels (alignFn : Img → Img) (image : Img) : List Img :=
  (List.range 6).map (fun i => alignFn (panel image i))

/-- `combined_height = sum(panel.height for panel in aligned_panels)`. -/
def combined_height (alignFn : Img → Img) (image : Img) : Nat :=
  ((aligned_panels alignFn image).map Img.h).sum

/-- The combined canvas of `process_and_split_image`: a fresh canvas of
the input width and the combined height, filled by the paste loop. -/
def combined_image (alignFn : Img → Img) (image : Img) : Img :=
  paste_column (Img.new image.w (combined_height alignFn image))
    (aligned_panels alignFn image) 0

/-- `trim_top = max(0, aligned_panels[0].height - panel_height)`;
natural subtraction is exactly this clamped difference. -/
def trim_top (alignFn : Img → Img) (image : Img) : Nat :=
  (aligned_panels alignFn image).headI.h - panel_height image

/-- `trim_bottom = max(0, aligned_panels[-1].height - panel_height)`. -/
def trim_bottom (alignFn : Img → Img) (image : Img) : Nat :=
  ((aligned_panels alignFn image).getLast!).h - panel_height image

/-- `process_and_split_image` of `gallery_v4.py`: return small frames
unmodified, otherwise split into 6 strips, align each, recombine on a
fresh canvas and trim the top and bottom excess. -/
def process_and_split_image (alignFn : Img → Img) (image : Img) : Img :=
  if image.h < 6 then image
  else
    crop (combined_image alignFn image) 0 (trim_top alignFn image)
      image.w (combined_height alignFn image - trim_bottom alignFn image)

/-- `gallery_width = max(img.width for img in images)`. -/
def gallery_width (images : List Img) : Nat := (images.map Img.w).foldr max 0

/-- `gallery_height = sum(img.height for img in images)`. -/
def gallery_height (images : List Img) : Nat := (images.map Img.h).sum

/-- The composition step of `create_gallery` (`if images: ... else`):
no gallery when no images were accepted, otherwise the pasted canvas. -/
def compose (images : List Img) : Option Img :=
  if images.isEmpty then none
  else some (paste_column (Img.new (gallery_width images) (gallery_height images)) images 0)

/-- The per-buoy accumulation loop of `create_gallery`, over the fetch
results of one cycle (`none` models a failed fetch or decode): skip
missing frames, skip blank frames, otherwise process and append. -/
def collect_images (alignFn : Img → Img) : List (Option Img) → List Img
  | [] => []
  | none :: rest => collect_images alignFn rest
  | some img :: rest =>
      if is_blank_image img then collect_images alignFn rest
      else process_and_split_image alignFn img :: collect_images alignFn rest

/-- The frames the loop actually hands to `process_and_split_image`. -/
def pipeline_frames : List (Option Img) → List Img
  | [] => []
  | none :: rest => pipeline_frames rest
  | some img :: rest =>
      if is_blank_image img then pipeline_frames rest
      else img :: pipeline_frames rest

/-- One cycle of `create_gallery` over the fetch results: collect the
accepted processed frames, then compose them. -/
def create_gallery (alignFn : Img → Img) (inputs : List (Option Img)) : Option Img :=
  compose (collect_images alignFn inputs)

end GalleryV4

open GalleryV4

/-! ### Helper lemmas about the embedded operations -/

lemma paste_column_w (l : List Img) (canvas : Img) (y : Nat) :
    (paste_column canvas l y).w = canvas.w := by
  induction l generalizing canvas y with
  | nil => rfl
  | cons a t ih => simpa [paste_column, paste] using ih (paste canvas a 0 y) (y + a.h)

lemma paste_column_h (l : List Img) (canvas : Img) (y : Nat) :
    (paste_column canvas l y).h = canvas.h := by
  induction l generalizing canvas y with
  | nil => rfl
  | cons a t ih => simpa [paste_column, paste] using ih (paste canvas a 0 y) (y + a.h)

lemma paste_column_px_lt (l : List Img) (canvas : Img) (y0 a b : Nat) (hb : b < y0) :
    (paste_column canvas l y0).px a b = canvas.px a b := by
  induction l generalizing canvas y0 with
  | nil => rfl
  | cons img rest ih =>
      rw [paste_column, ih (paste canvas img 0 y0) (y0 + img.h) (by omega)]
      simp only [paste]
      rw [if_neg (by omega)]

lemma paste_column_px_get (l : List Img) (canvas : Img) (y0 k x y : Nat)
    (hk : k < l.length) (hx : x < (l.get ⟨k, hk⟩).w) (hy : y < (l.get ⟨k, hk⟩).h) :
    (paste_column canvas l y0).px x (y0 + ((l.take k).map Img.h).sum + y) =
      (l.get ⟨k, hk⟩).px x y := by
  induction l generalizing canvas y0 k with
  | nil => exact absurd hk (by simp)
  | cons img rest ih =>
      cases k with
      | zero =>
          simp only [List.take_zero, List.map_nil, List.sum_nil, Nat.add_zero] at *
          rw [paste_column, paste_column_px_lt rest _ _ _ _ (by
            simp only [List.get] at hy; omega)]
          simp only [List.get] at hx hy
          simp only [paste]
          rw [if_pos (by omega)]
          congr 1
          all_goals omega
      | succ k =>
          have hk' : k < rest.length := by simpa using hk
          simp only [List.take_succ_cons, List.map_cons, List.sum_cons]
          rw [paste_column, ← Nat.add_assoc y0 img.h _]
          exact ih (paste canvas img 0 y0) (y0 + img.h) k hk' hx hy

lemma le_foldr_max (l : List Nat) : ∀ x ∈ l, x ≤ l.foldr max 0 := by
  induction l with
  | nil => simp
  | cons a t ih =>
      intro x hx
      rcases List.mem_cons.mp hx with h | h
      · subst h; exact le_max_left _ _
      · exact le_trans (ih x h) (le_max_right _ _)

lemma foldr_max_mem (l : List Nat) (hl : l ≠ []) : ∃ x ∈ l, l.foldr max 0 = x := by
  induction l with
  | nil => exact absurd rfl hl
  | cons a t ih =>
      cases t with
      | nil => exact ⟨a, by simp, by simp⟩
      | cons b t2 =>
          obtain ⟨x, hx, he⟩ := ih (by simp)
          rcases le_total ((b :: t2).foldr max 0) a with h | h
          · exact ⟨a, by simp, by rw [List.foldr_cons]; exact max_eq_left h⟩
          · exact ⟨x, List.mem_cons_of_mem a hx, by
              rw [List.foldr_cons, max_eq_right h, he]⟩

lemma aligned_panels_eq (alignFn : Img → Img) (image : Img) :
    aligned_panels alignFn image =
      [alignFn (panel image 0), alignFn (panel image 1), alignFn (panel image 2),
        alignFn (panel image 3), alignFn (panel image 4), alignFn (panel image 5)] := rfl

lemma trim_top_eq (alignFn : Img → Img) (image : Img) :
    trim_top alignFn image = (alignFn (panel image 0)).h - panel_height image := rfl

lemma trim_bottom_eq (alignFn : Img → Img) (image : Img) :
    trim_bottom alignFn image = (alignFn (panel image 5)).h - panel_height image := by
  rw [trim_bottom, aligned_panels_eq]
  rfl

lemma combined_height_eq (alignFn : Img → Img) (image : Img) :
    combined_height alignFn image =
      (alignFn (panel image 0)).h + (alignFn (panel image 1)).h +
        (alignFn (panel image 2)).h + (alignFn (panel image 3)).h +
        (alignFn (panel image 4)).h + (alignFn (panel image 5)).h := by
  rw [combined_height, aligned_panels_eq]
  simp [Nat.add_assoc]

lemma combined_image_w (alignFn : Img → Img) (image : Img) :
    (combined_image alignFn image).w = image.w := by
  rw [combined_image, paste_column_w]; rfl

lemma combined_image_h (alignFn : Img → Img) (image : Img) :
    (combined_image alignFn image).h = combined_height alignFn image := by
  rw [combined_image, paste_column_h]; rfl

/-- Shared no-line fact: when the detector reports no lines, the mean
angle is zero and the PIL fast path returns the panel itself. -/
lemma align_horizon_no_lines (E : Cv) (image : Img)
    (hno : E.hough image = Except.ok none) :
    correction_angle E image = Except.ok 0 ∧
      align_horizon E image = Except.ok image := by
  have hc : correction_angle E image = Except.ok 0 := by
    simp only [correction_angle]
    rw [hno]
    rfl
  refine ⟨hc, ?_⟩
  simp only [align_horizon]
  rw [hc]
  rfl

/-! ### Claim C4: no detected lines gives a zero correction and an
unchanged panel -/

/-- C4: for every panel on which the line detector finds no lines
(`lines is None`), `align_horizon` computes a correction angle of
exactly `0`, does not fail, and returns a panel whose pixel content is
identical to the input (PIL rotation by `0` is an identical copy). -/
theorem c4_align_no_lines_identity (E : Cv) (image : Img)
    (hno : E.hough image = Except.ok none) :
    correction_angle E image = Except.ok 0 ∧
      align_horizon E image = Except.ok image :=
  align_horizon_no_lines E image hno

/-- A detector instance reporting no lines on every input, and a panel
on which C4 is witnessed concretely. -/
def c4_cv : Cv := ⟨fun _ => Except.ok none, fun i _ => i⟩

def c4_img : Img := ⟨3, 2, fun _ _ => 5⟩

theorem c4_witness :
    c4_cv.hough c4_img = Except.ok none ∧
      correction_angle c4_cv c4_img = Except.ok 0 ∧
      align_horizon c4_cv c4_img = Except.ok c4_img :=
  ⟨rfl, (c4_align_no_lines_identity c4_cv c4_img rfl).1,
    (c4_align_no_lines_identity c4_cv c4_img rfl).2⟩

/-! ### Claim C9: idempotence of `align_horizon` in the no-line case -/

/-- C9: `align_horizon` is idempotent in the no-edge case: when the
detector finds no lines on a panel, running the aligner on the output
of the aligner yields that same output. -/
theorem c9_align_idempotent_no_lines (E : Cv) (image : Img)
    (hno : E.hough image = Except.ok none) :
    (align_horizon E image).bind (align_horizon E) = align_horizon E image := by
  rw [(align_horizon_no_lines E image hno).2]
  simp only [Except.bind]
  exact (align_horizon_no_lines E image hno).2

def c9_cv : Cv := ⟨fun _ => Except.ok none, fun i _ => i⟩

def c9_img : Img := ⟨2, 2, fun _ _ => 9⟩

theorem c9_witness :
    c9_cv.hough c9_img = Except.ok none ∧
      (align_horizon c9_cv c9_img).bind (align_horizon c9_cv) =
        align_horizon c9_cv c9_img :=
  ⟨rfl, c9_align_idempotent_no_lines c9_cv c9_img rfl⟩

/-! ### Claim C8: degenerate panel dimensions -/

/-- A concrete model of the external detector faithful to OpenCV on
degenerate input: `cv2.Canny` raises its non-empty assertion whenever
the input array has zero total size, so the detector errors exactly on
zero-width or zero-height panels; on a non-empty panel this instance
reports no lines (one of the valid detector outcomes).  Rotation by a
nonzero angle is irrelevant here and kept as the identity. -/
def c8_cv : Cv :=
  ⟨fun i => if i.w = 0 ∨ i.h = 0 then Except.error () else Except.ok none,
    fun i _ => i⟩

def c8_img : Img := ⟨0, 0, fun _ _ => 0⟩

/-- C8 counterexample: on a zero-sized panel `align_horizon` does not
short-circuit with the panel unmodified; there is no size guard in the
source, so the OpenCV edge detector fails on the empty input and the
aligner propagates the error (which `create_gallery` catches at the
per-source level). -/
theorem c8_cex :
    align_horizon c8_cv c8_img = Except.error () ∧
      align_horizon c8_cv c8_img ≠ Except.ok c8_img := by
  refine ⟨rfl, ?_⟩
  intro hcontra
  exact Except.noConfusion ((rfl : align_horizon c8_cv c8_img = Except.error ()) ▸ hcontra)

/-- C8 amended: for every detector that fails on empty input (as the
OpenCV Canny assertion does) and every panel of zero width or zero
height, `align_horizon` returns that error rather than the panel: the
source has no degenerate-size guard. -/
theorem c8_align_degenerate_errors (E : Cv)
    (hE : ∀ i : Img, i.w = 0 ∨ i.h = 0 → E.hough i = Except.error ())
    (image : Img) (hdeg : image.w = 0 ∨ image.h = 0) :
    align_horizon E image = Except.error () := by
  simp only [align_horizon, correction_angle]
  rw [hE image hdeg]
  rfl

def c8_wimg : Img := ⟨0, 5, fun _ _ => 0⟩

theorem c8_witness :
    (c8_wimg.w = 0 ∨ c8_wimg.h = 0) ∧
      align_horizon c8_cv c8_wimg = Except.error () :=
  ⟨Or.inl rfl,
    c8_align_degenerate_errors c8_cv
      (fun i hi => by simp only [c8_cv]; rw [if_pos hi])
      c8_wimg (Or.inl rfl)⟩

/-! ### Claim C5: frames too short to split pass through unmodified -/

/-- C5: for every frame of height below the panel count 6,
`process_and_split_image` returns the input frame itself, for every
aligner: no split and no alignment happens (the shallow analog of the
reference-equal `return image` of the source). -/
theorem c5_short_frame_passthrough (alignFn : Img → Img) (image : Img)
    (hs : image.h < 6) :
    process_and_split_image alignFn image = image := by
  rw [process_and_split_image, if_pos hs]

def c5_img : Img := ⟨4, 3, fun _ _ => 3⟩

theorem c5_witness :
    c5_img.h < 6 ∧ process_and_split_image id c5_img = c5_img :=
  ⟨by decide, c5_short_frame_passthrough id c5_img (by decide)⟩

lemma cast_nat_sub_eq_max (a b : Nat) : ((a - b : Nat) : ℤ) = max 0 ((a : ℤ) - b) := by
  rcases le_total a b with h | h
  · rw [Nat.sub_eq_zero_of_le h, max_eq_left (by omega)]
    rfl
  · rw [max_eq_right (by omega)]
    omega

/-! ### Claim C2: the combined canvas and the trimming arithmetic -/

/-- C2: for every frame of height at least 6 and every aligner output,
`process_and_split_image` builds a combined canvas of the input width
whose height is the sum of the rotated strip heights, removes exactly
`trim_top = max(0, firstPanel.height - panel_height)` rows from the
top and `trim_bottom = max(0, lastPanel.height - panel_height)` rows
from the bottom, and the trimmed height is never negative. -/
theorem c2_process_canvas_and_trim (alignFn : Img → Img) (image : Img)
    (h6 : 6 ≤ image.h) :
    (combined_image alignFn image).w = image.w ∧
    (combined_image alignFn image).h = combined_height alignFn image ∧
    (process_and_split_image alignFn image).w = image.w ∧
    (trim_top alignFn image : ℤ) =
      max 0 (((alignFn (panel image 0)).h : ℤ) - panel_height image) ∧
    (trim_bottom alignFn image : ℤ) =
      max 0 (((alignFn (panel image 5)).h : ℤ) - panel_height image) ∧
    ((process_and_split_image alignFn image).h : ℤ) =
      (combined_height alignFn image : ℤ) -
        trim_top alignFn image - trim_bottom alignFn image ∧
    0 ≤ (combined_height alignFn image : ℤ) -
        trim_top alignFn image - trim_bottom alignFn image ∧
    (∀ x y, x < image.w →
      trim_top alignFn image + y < combined_height alignFn image →
      (process_and_split_image alignFn image).px x y =
        (combined_image alignFn image).px x (trim_top alignFn image + y)) := by
  have hproc : process_and_split_image alignFn image =
      crop (combined_image alignFn image) 0 (trim_top alignFn image) image.w
        (combined_height alignFn image - trim_bottom alignFn image) := by
    rw [process_and_split_image, if_neg (by omega)]
  have htt := trim_top_eq alignFn image
  have htb := trim_bottom_eq alignFn image
  have hch := combined_height_eq alignFn image
  refine ⟨combined_image_w alignFn image, combined_image_h alignFn image, ?_, ?_, ?_, ?_, ?_, ?_⟩
  · rw [hproc]
    simp [crop]
  · rw [htt, panel_height]
    exact cast_nat_sub_eq_max _ _
  · rw [htb, panel_height]
    exact cast_nat_sub_eq_max _ _
  · rw [hproc]
    show (((combined_height alignFn image - trim_bottom alignFn image) -
      trim_top alignFn image : Nat) : ℤ) = _
    omega
  · omega
  · intro x y hx hy
    rw [hproc]
    show (if 0 + x < (combined_image alignFn image).w ∧
        trim_top alignFn image + y < (combined_image alignFn image).h then
        (combined_image alignFn image).px (0 + x) (trim_top alignFn image + y)
      else 0) = _
    rw [if_pos ⟨by rw [combined_image_w]; omega, by rw [combined_image_h]; omega⟩,
      Nat.zero_add]

def c2_img : Img := ⟨2, 7, fun _ _ => 0⟩

theorem c2_witness :
    6 ≤ c2_img.h ∧ (combined_image id c2_img).w = c2_img.w ∧
      (combined_image id c2_img).h = combined_height id c2_img :=
  ⟨by decide, (c2_process_canvas_and_trim id c2_img (by decide)).1,
    (c2_process_canvas_and_trim id c2_img (by decide)).2.1⟩

/-! ### Claim C3: the six crop boundaries and the dropped remainder -/

def c3_img : Img := ⟨1, 7, fun _ _ => 0⟩

/-- C3 counterexample: on a frame of height 7 (so `7 mod 6 = 1`), the
final crop boundary `(5 + 1) * panel_height` is `6`, not the actual
frame height `7`, and row `6` of the frame lies inside no strip
`[i * panel_height, (i + 1) * panel_height)`: the remainder rows are
dropped, not absorbed by the last strip. -/
theorem c3_cex :
    6 ≤ c3_img.h ∧
      (5 + 1) * panel_height c3_img ≠ c3_img.h ∧
      (∀ i, i < 6 → ¬(i * panel_height c3_img ≤ 6 ∧
        6 < (i + 1) * panel_height c3_img)) := by decide

/-- C3 amended: for every frame of height `H ≥ 6`, the pipeline crops 6
contiguous strips of exactly `panel_height = H / 6` rows; the final
crop boundary is `6 * (H / 6) = H - H % 6`, so rows below it belong to
exactly one strip and the last `H mod 6` rows belong to no strip. -/
theorem c3_strip_boundaries (image : Img) (h6 : 6 ≤ image.h) :
    panel_height image = image.h / 6 ∧
    (∀ i, i < 6 → (panel image i).h = panel_height image) ∧
    6 * panel_height image = image.h - image.h % 6 ∧
    (∀ r, r < 6 * panel_height image →
      ∃! i, i < 6 ∧ i * panel_height image ≤ r ∧
        r < (i + 1) * panel_height image) ∧
    (∀ r, 6 * panel_height image ≤ r → ∀ i, i < 6 →
      ¬(i * panel_height image ≤ r ∧ r < (i + 1) * panel_height image)) := by
  have hph : 0 < panel_height image := by
    simp only [panel_height]; omega
  refine ⟨rfl, ?_, ?_, ?_, ?_⟩
  · intro i _
    simp only [panel, crop]
    rw [Nat.succ_mul, Nat.add_sub_cancel_left]
  · simp only [panel_height]; omega
  · intro r hr
    refine ⟨r / panel_height image,
      ⟨(Nat.div_lt_iff_lt_mul hph).mpr hr, Nat.div_mul_le_self r _, ?_⟩, ?_⟩
    · have h1 : panel_height image * (r / panel_height image) +
          r % panel_height image = r := Nat.div_add_mod r _
      have h2 : r % panel_height image < panel_height image := Nat.mod_lt r hph
      calc r = panel_height image * (r / panel_height image) +
            r % panel_height image := h1.symm
        _ < panel_height image * (r / panel_height image) +
            panel_height image := by omega
        _ = (r / panel_height image + 1) * panel_height image := by ring
    · rintro j ⟨-, hj1, hj2⟩
      exact Nat.div_eq_of_lt_le hj1 hj2 ▸ rfl
  · rintro r hr i hi ⟨-, h2⟩
    have : (i + 1) * panel_height image ≤ 6 * panel_height image :=
      Nat.mul_le_mul_right _ (by omega)
    omega

def c3_wimg : Img := ⟨1, 13, fun _ _ => 0⟩

theorem c3_witness :
    6 ≤ c3_wimg.h ∧ 6 * panel_height c3_wimg = c3_wimg.h - c3_wimg.h % 6 :=
  ⟨by decide, (c3_strip_boundaries c3_wimg (by decide)).2.2.1⟩

/-! ### Claim C1: the blank threshold is strict -/

lemma max_hist_gt_iff (image : Img) (c : Nat) :
    c < 20 * max_hist image ↔ ∃ b, b < 256 ∧ c < 20 * hist image b := by
  constructor
  · intro h
    obtain ⟨b, hb, he⟩ := Finset.exists_mem_eq_sup (Finset.range 256)
      ⟨0, by simp⟩ (hist image)
    refine ⟨b, Finset.mem_range.mp hb, ?_⟩
    rw [max_hist, he] at h
    exact h
  · rintro ⟨b, hb, hgt⟩
    have hle : hist image b ≤ max_hist image :=
      Finset.le_sup (Finset.mem_range.mpr hb)
    omega

def c1_img : Img := ⟨20, 1, fun x _ => if x < 19 then 0 else 128⟩

set_option maxRecDepth 20000 in
/-- C1 counterexample: a 20-pixel frame whose black bucket holds
exactly 95 percent of the pixel mass (`20 * hist 0 = 19 * total`) is
classified not blank, because every comparison in the source is
strict; the claim says the exact 95 percent boundary is blank. -/
theorem c1_cex :
    20 * hist c1_img 0 = 19 * total_pixels c1_img ∧
      is_blank_image c1_img = false := by decide

set_option maxRecDepth 20000 in
/-- C1 amended: the classifier returns true exactly when some bucket
holds strictly more than 95 percent of the pixel mass (so a bucket at
exactly 95 percent is not blank), and it returns false on any frame
whose mass is split half and half between two buckets. -/
theorem c1_blank_strict_threshold :
    (∀ image : Img, is_blank_image image = true ↔
      ∃ b, b < 256 ∧ 20 * hist image b > 19 * total_pixels image) ∧
    (∀ image : Img,
      (∀ b, b < 256 → 2 * hist image b ≤ total_pixels image) →
      is_blank_image image = false) := by
  have hmain : ∀ image : Img, is_blank_image image = true ↔
      ∃ b, b < 256 ∧ 20 * hist image b > 19 * total_pixels image := by
    intro image
    rw [is_blank_image]
    split_ifs with h1 h2
    · simp only [true_iff]
      rcases h1 with h | h
      · exact ⟨255, by omega, h⟩
      · exact ⟨0, by omega, h⟩
    · simp only [true_iff]
      exact (max_hist_gt_iff image _).mp h2
    · simp only [Bool.false_eq_true, false_iff]
      intro hex
      exact h2 ((max_hist_gt_iff image _).mpr hex)
  refine ⟨hmain, ?_⟩
  intro image hsm
  cases hb : is_blank_image image
  · rfl
  · obtain ⟨b, hblt, hgt⟩ := (hmain image).mp hb
    have := hsm b hblt
    omega

def c1_wimg : Img := ⟨2, 1, fun x _ => if x = 0 then 0 else 255⟩

set_option maxRecDepth 20000 in
theorem c1_witness :
    (∀ b, b < 256 → 2 * hist c1_wimg b ≤ total_pixels c1_wimg) ∧
      is_blank_image c1_wimg = false :=
  ⟨by decide, c1_blank_strict_threshold.2 c1_wimg (by decide)⟩

/-! ### Claim C10: the two blank classifiers are not equivalent -/

def c10_img : Img := ⟨1, 1, fun _ _ => 0⟩

set_option maxRecDepth 20000 in
/-- C10 counterexample: on an all-black one-pixel frame the
`gallery_v2` classifier answers false (it only looks at the pure-white
bucket) while the `gallery_v4` classifier answers true. -/
theorem c10_cex :
    GalleryV2.is_blank_image c10_img = false ∧
      GalleryV4.is_blank_image c10_img = true ∧
      GalleryV2.is_blank_image c10_img ≠ GalleryV4.is_blank_image c10_img := by
  decide

/-- C10 amended: the `gallery_v4` classifier refines the `gallery_v2`
one in one direction only: every frame blank for `gallery_v2` is blank
for `gallery_v4`, but not conversely (an all-black frame separates
them). -/
theorem c10_v2_implies_v4 (image : Img)
    (h2 : GalleryV2.is_blank_image image = true) :
    GalleryV4.is_blank_image image = true := by
  have hw : 20 * hist image 255 > 19 * total_pixels image := by
    simpa [GalleryV2.is_blank_image] using h2
  rw [GalleryV4.is_blank_image, if_pos (Or.inl hw)]

def c10_wimg : Img := ⟨1, 1, fun _ _ => 255⟩

set_option maxRecDepth 20000 in
theorem c10_witness :
    GalleryV2.is_blank_image c10_wimg = true ∧
      GalleryV4.is_blank_image c10_wimg = true :=
  ⟨by decide, c10_v2_implies_v4 c10_wimg (by decide)⟩

/-! ### Claim C6: gallery composition -/

def c6_A : Img := ⟨10, 5, fun _ _ => 1⟩

def c6_B : Img := ⟨8, 7, fun _ _ => 2⟩

/-- C6: composing no frames yields no gallery; composing a non-empty
sequence yields a canvas whose width is the maximum input width and
whose height is the sum of input heights, with each frame pasted at
`x = 0` and a `y` offset equal to the sum of the preceding heights; in
particular two frames of sizes 10 by 5 and 8 by 7 give a 10 by 12
gallery with the second frame starting at row 5. -/
theorem c6_compose_spec :
    compose ([] : List Img) = none ∧
    (∀ images : List Img, images ≠ [] →
      ∃ g, compose images = some g ∧
        (∀ i ∈ images, i.w ≤ g.w) ∧ (∃ i ∈ images, i.w = g.w) ∧
        g.h = (images.map Img.h).sum ∧
        (∀ k (hk : k < images.length), ∀ x y,
          x < (images.get ⟨k, hk⟩).w → y < (images.get ⟨k, hk⟩).h →
          g.px x (((images.take k).map Img.h).sum + y) =
            (images.get ⟨k, hk⟩).px x y)) ∧
    (∃ g, compose [c6_A, c6_B] = some g ∧ g.w = 10 ∧ g.h = 12 ∧
      ∀ x y, x < 8 → y < 7 → g.px x (5 + y) = c6_B.px x y) := by
  have h2 : ∀ images : List Img, images ≠ [] →
      ∃ g, compose images = some g ∧
        (∀ i ∈ images, i.w ≤ g.w) ∧ (∃ i ∈ images, i.w = g.w) ∧
        g.h = (images.map Img.h).sum ∧
        (∀ k (hk : k < images.length), ∀ x y,
          x < (images.get ⟨k, hk⟩).w → y < (images.get ⟨k, hk⟩).h →
          g.px x (((images.take k).map Img.h).sum + y) =
            (images.get ⟨k, hk⟩).px x y) := by
    intro images hne
    cases images with
    | nil => exact absurd rfl hne
    | cons a t =>
        refine ⟨paste_column
          (Img.new (gallery_width (a :: t)) (gallery_height (a :: t))) (a :: t) 0,
          rfl, ?_, ?_, ?_, ?_⟩
        · intro i hi
          rw [paste_column_w]
          exact le_foldr_max _ _ (List.mem_map_of_mem Img.w hi)
        · obtain ⟨x, hx, he⟩ := foldr_max_mem ((a :: t).map Img.w) (by simp)
          obtain ⟨i, hi, hix⟩ := List.mem_map.mp hx
          refine ⟨i, hi, ?_⟩
          rw [paste_column_w]
          show Img.w i = gallery_width (a :: t)
          rw [gallery_width, he]
          exact hix
        · rw [paste_column_h]
          rfl
        · intro k hk x y hx hy
          have hpc := paste_column_px_get (a :: t)
            (Img.new (gallery_width (a :: t)) (gallery_height (a :: t))) 0 k x y hk hx hy
          simpa using hpc
  refine ⟨rfl, h2, ?_⟩
  obtain ⟨g, hg, hle, hex, hh, hpx⟩ := h2 [c6_A, c6_B] (by simp)
  refine ⟨g, hg, ?_, ?_, ?_⟩
  · obtain ⟨i, hi, hiw⟩ := hex
    have h10 : c6_A.w ≤ g.w := hle c6_A (by simp)
    rcases List.mem_cons.mp hi with h | h
    · rw [← hiw, h]
      rfl
    · have hib : i = c6_B := by simpa using h
      subst hib
      simp only [c6_A, c6_B] at hiw h10
      omega
  · simpa [c6_A, c6_B] using hh
  · intro x y hx hy
    exact hpx 1 (by decide) x y hx hy

theorem c6_witness : (compose [c6_A]).isSome = true := by
  obtain ⟨g, hg, -, -, -, -⟩ := c6_compose_spec.2.1 [c6_A] (by simp)
  rw [hg]
  rfl

/-! ### Claim C7: blank frames never reach the pipeline or the gallery -/

lemma pipeline_frames_not_blank (inputs : List (Option Img)) :
    ∀ f ∈ pipeline_frames inputs, is_blank_image f = false := by
  induction inputs with
  | nil => intro f hf; simp [pipeline_frames] at hf
  | cons o rest ih =>
      cases o with
      | none => simpa [pipeline_frames] using ih
      | some img =>
          intro f hf
          rw [pipeline_frames] at hf
          by_cases hb : is_blank_image img = true
          · rw [if_pos hb] at hf
            exact ih f hf
          · rw [if_neg hb] at hf
            rcases List.mem_cons.mp hf with h | h
            · subst h
              simpa using hb
            · exact ih f h

lemma collect_images_sources (alignFn : Img → Img) (inputs : List (Option Img)) :
    ∀ g ∈ collect_images alignFn inputs, ∃ f, some f ∈ inputs ∧
      is_blank_image f = false ∧ g = process_and_split_image alignFn f := by
  induction inputs with
  | nil => intro g hg; simp [collect_images] at hg
  | cons o rest ih =>
      cases o with
      | none =>
          intro g hg
          rw [collect_images] at hg
          obtain ⟨f, hf, hfb, he⟩ := ih g hg
          exact ⟨f, List.mem_cons_of_mem _ hf, hfb, he⟩
      | some img =>
          intro g hg
          rw [collect_images] at hg
          by_cases hb : is_blank_image img = true
          · rw [if_pos hb] at hg
            obtain ⟨f, hf, hfb, he⟩ := ih g hg
            exact ⟨f, List.mem_cons_of_mem _ hf, hfb, he⟩
          · rw [if_neg hb] at hg
            rcases List.mem_cons.mp hg with h | h
            · exact ⟨img, List.mem_cons_self _ _, by simpa using hb, h⟩
            · obtain ⟨f, hf, hfb, he⟩ := ih g h
              exact ⟨f, List.mem_cons_of_mem _ hf, hfb, he⟩

/-- C7: in every per-cycle run, every frame the loop hands to the panel
pipeline is non-blank (so a frame flagged blank by the validator is
never passed to it), every image composed into the gallery is the
processed version of some non-blank fetched frame, and the gallery of
the cycle is composed from exactly that accepted list. -/
theorem c7_blank_never_reaches_pipeline (alignFn : Img → Img)
    (inputs : List (Option Img)) :
    (∀ f ∈ pipeline_frames inputs, is_blank_image f = false) ∧
    (∀ f, is_blank_image f = true → f ∉ pipeline_frames inputs) ∧
    (∀ g ∈ collect_images alignFn inputs, ∃ f, some f ∈ inputs ∧
      is_blank_image f = false ∧ g = process_and_split_image alignFn f) ∧
    create_gallery alignFn inputs = compose (collect_images alignFn inputs) := by
  refine ⟨pipeline_frames_not_blank inputs, ?_,
    collect_images_sources alignFn inputs, rfl⟩
  intro f hblank hmem
  have hfalse := pipeline_frames_not_blank inputs f hmem
  rw [hblank] at hfalse
  exact Bool.noConfusion hfalse

def c7_img : Img := ⟨2, 1, fun x _ => if x = 0 then 0 else 255⟩

set_option maxRecDepth 20000 in
theorem c7_witness : is_blank_image c7_img = false := by
  have hb : is_blank_image c7_img = false := by decide
  exact (c7_blank_never_reaches_pipeline id [some c7_img]).1 c7_img
    (by simp [pipeline_frames, hb])
